import Mathlib

/-!
Verification development for the normalization stage in `dlt/normalize/normalize.py`.

The definitions below are a shallow embedding of the Python source.  Pure helper
functions become Lean functions; Python's in-place list mutation is modelled by
explicit state passing; operations that can raise (`IndexError` on an
out-of-range list index, pop from an empty list) return `Option`/`Except`.
Repository helpers that are not part of the file under `src/`
(`dlt.common.utils.chunks`, the storage/signal collaborators, the `Schema`
contract) are modelled from the specification; each such definition carries a
doc comment saying so.
-/

namespace DltNormalize

/-! ### Python string ordering

Python compares `str` values lexicographically by code point, which is exactly
the lexicographic order on `String.data` (the list of characters). -/

/-- Python's `<=` on `str`: codepoint-lexicographic order, i.e. the order of
`String.data`. -/
def pyStrLe (a b : String) : Prop := a.data ≤ b.data

instance : DecidableRel pyStrLe := fun a b => inferInstanceAs (Decidable (a.data ≤ b.data))

instance : IsTotal String pyStrLe := ⟨fun a b => le_total a.data b.data⟩

instance : IsTrans String pyStrLe := ⟨fun _ _ _ => le_trans⟩

/-- Python's `sorted(files)` (line 173 of `normalize.py`): a stable ascending
sort.  Any sorted permutation of a list of strings is unique, so insertion
sort embeds `sorted` faithfully. -/
def pySorted (files : List String) : List String := List.insertionSort pyStrLe files

/-! ### `chunks` (dlt.common.utils) -/

/-- Fuel-driven worker for `chunksList`; the fuel is an upper bound on the
number of rounds (the input length suffices when the chunk size is ≥ 1). -/
def chunksGo : Nat → List String → Nat → List (List String)
  | _, [], _ => []
  | 0, _ :: _, _ => []
  | fuel + 1, x :: xs, q => (x :: xs).take q :: chunksGo fuel ((x :: xs).drop q) q

/-- Modelled from the spec: `chunks` (`dlt.common.utils`, not under `src/`) —
"simple chunking with `chunk_size`": the input is cut into consecutive chunks
of `q` elements, the final chunk holding the remainder (`seq[i:i+n]` slices for
`i = 0, n, 2n, ...`). -/
def chunksList (xs : List String) (q : Nat) : List (List String) :=
  chunksGo xs.length xs q

/-! ### `Normalize.group_worker_files` (normalize.py lines 170-185)

The redistribution loop mutates `chunk_files` through Python negative indices:
`chunk_files[-l_idx - idx - remainder_l].append(file)`.  A negative index `-k`
addresses position `len - k` and raises `IndexError` when `k` is out of range;
the embedding returns `none` in that case. -/

/-- `chunk_files[-k].append(x)` for a Python list: appends `x` to the element
`k` positions from the end, `none` when `-k` is out of range (`IndexError`). -/
def pyAppendFromEnd (L : List (List String)) (k : Nat) (x : String) :
    Option (List (List String)) :=
  if 1 ≤ k ∧ k ≤ L.length then
    some (L.set (L.length - k) (L.getD (L.length - k) [] ++ [x]))
  else none

/-- The `for idx, file in enumerate(reversed(chunk_files.pop())): ...` body of
`group_worker_files` (line 181-182): `fs` is the reversed popped chunk, `idx`
the running enumeration index. -/
def distribGo (L : List (List String)) (fs : List String) (idx l_idx rem : Nat) :
    Option (List (List String)) :=
  match fs with
  | [] => some L
  | f :: rest =>
    match pyAppendFromEnd L (l_idx + idx + rem) f with
    | none => none
    | some L2 => distribGo L2 rest (idx + 1) l_idx rem

/-- The `while remainder_l > 0` loop of `group_worker_files` (lines 178-184):
pop the last chunk, spread its files (reversed, enumerated) into earlier
chunks, decrement the remainder, and set `l_idx` to the size of the popped
chunk (Python's leaked loop variable: `l_idx = idx + 1`).  Popping an empty
list raises, and an empty popped chunk would leave `idx` unbound at
`l_idx = idx + 1`; both are modelled as `none`. -/
def redistribute : List (List String) → Nat → Nat → Option (List (List String))
  | L, 0, _ => some L
  | L, rem + 1, l_idx =>
    match L.getLast? with
    | none => none
    | some c =>
      if c.isEmpty then none
      else
        match distribGo L.dropLast c.reverse 0 l_idx (rem + 1) with
        | none => none
        | some L2 => redistribute L2 rem c.length

/-- `Normalize.group_worker_files(files, no_groups)` (lines 170-185): sort the
files, cut them into chunks of `max(len(files) // no_groups, 1)`, then fold the
surplus chunks back into the earlier ones.  `no_groups = 0` would be a
`ZeroDivisionError` in Python and is `none` here. -/
def group_worker_files (files : List String) (no_groups : Nat) :
    Option (List (List String)) :=
  if no_groups = 0 then none
  else
    let sorted := pySorted files
    let chunk_size := max (sorted.length / no_groups) 1
    let chunk_files := chunksList sorted chunk_size
    redistribute chunk_files (chunk_files.length - no_groups) 0

/-! ### Facts about `chunksGo` / `chunksList` -/

theorem chunksGo_nil (fuel q : Nat) : chunksGo fuel [] q = [] := by
  cases fuel <;> rfl

theorem chunksGo_flatten (fuel : Nat) :
    ∀ (xs : List String) (q : Nat), 1 ≤ q → xs.length ≤ fuel →
      (chunksGo fuel xs q).flatten = xs := by
  induction fuel with
  | zero =>
    intro xs q _ hlen
    have : xs = [] := List.eq_nil_of_length_eq_zero (Nat.le_zero.mp hlen)
    subst this; rfl
  | succ fuel ih =>
    intro xs q hq hlen
    cases xs with
    | nil => rfl
    | cons x l =>
      have hdrop : ((x :: l).drop q).length ≤ fuel := by
        simp only [List.length_drop, List.length_cons] at *
        omega
      simp only [chunksGo, List.flatten_cons, ih _ q hq hdrop, List.take_append_drop]

theorem chunksGo_ne_nil (fuel : Nat) :
    ∀ (xs : List String) (q : Nat) (c : List String), 1 ≤ q →
      c ∈ chunksGo fuel xs q → c ≠ [] := by
  induction fuel with
  | zero =>
    intro xs q c _ hc
    cases xs <;> simp [chunksGo] at hc
  | succ fuel ih =>
    intro xs q c hq hc
    cases xs with
    | nil => simp [chunksGo] at hc
    | cons x l =>
      simp only [chunksGo, List.mem_cons] at hc
      rcases hc with hc | hc
      · subst hc
        cases q with
        | zero => omega
        | succ q => simp
      · exact ih _ q c hq hc

theorem chunksGo_take_sizes (n : Nat) :
    ∀ (fuel : Nat) (xs : List String) (q : Nat), 1 ≤ q → xs.length ≤ fuel →
      n < (chunksGo fuel xs q).length →
      (((chunksGo fuel xs q).take n).map List.length).sum = n * q := by
  induction n with
  | zero => intro fuel xs q _ _ _; simp
  | succ n ih =>
    intro fuel xs q hq hlen hn
    cases fuel with
    | zero =>
      have : xs = [] := List.eq_nil_of_length_eq_zero (Nat.le_zero.mp hlen)
      subst this; simp [chunksGo] at hn
    | succ fuel =>
      cases xs with
      | nil => simp [chunksGo] at hn
      | cons x l =>
        simp only [chunksGo, List.length_cons] at hn
        have hrest : n < (chunksGo fuel ((x :: l).drop q) q).length := by omega
        have hne : chunksGo fuel ((x :: l).drop q) q ≠ [] := by
          intro h; rw [h] at hrest; simp at hrest
        have hdropne : (x :: l).drop q ≠ [] := by
          intro h; rw [h, chunksGo_nil] at hne; exact hne rfl
        have hqlt : q < (x :: l).length := by
          by_contra hcon
          exact hdropne (List.drop_eq_nil_of_le (Nat.le_of_not_lt hcon))
        have hdlen : ((x :: l).drop q).length ≤ fuel := by
          simp only [List.length_drop] at *
          omega
        simp only [chunksGo, List.take_succ_cons, List.map_cons, List.sum_cons,
          List.length_take, ih fuel _ q hq hdlen hrest]
        have : min q (x :: l).length = q := Nat.min_eq_left (Nat.le_of_lt hqlt)
        rw [this]; ring

theorem chunksGo_sorted (fuel : Nat) :
    ∀ (xs : List String) (q : Nat) (c : List String),
      List.Sorted pyStrLe xs → c ∈ chunksGo fuel xs q → List.Sorted pyStrLe c := by
  induction fuel with
  | zero => intro xs q c _ hc; cases xs <;> simp [chunksGo] at hc
  | succ fuel ih =>
    intro xs q c hs hc
    cases xs with
    | nil => simp [chunksGo] at hc
    | cons x l =>
      simp only [chunksGo, List.mem_cons] at hc
      rcases hc with hc | hc
      · subst hc
        exact List.Pairwise.sublist (List.take_sublist _ _) hs
      · exact ih _ q c (List.Pairwise.sublist (List.drop_sublist _ _) hs) hc

/-! ### Facts about `pyAppendFromEnd`, `distribGo`, `redistribute` -/

theorem set_append_left {α : Type} (K T : List α) (i : Nat) (v : α) (h : i < K.length) :
    (K ++ T).set i v = K.set i v ++ T := by
  induction K generalizing i with
  | nil => simp at h
  | cons a K ih =>
    cases i with
    | zero => simp
    | succ i =>
      simp only [List.cons_append, List.set_cons_succ, List.cons.injEq, true_and]
      exact ih i (by simpa using Nat.lt_of_succ_lt_succ h)

theorem getD_append_left {α : Type} (K T : List α) (i : Nat) (d : α) (h : i < K.length) :
    (K ++ T).getD i d = K.getD i d := by
  induction K generalizing i with
  | nil => simp at h
  | cons a K ih =>
    cases i with
    | zero => simp [List.getD]
    | succ i =>
      simp only [List.cons_append, List.getD_cons_succ]
      exact ih i (by simpa using Nat.lt_of_succ_lt_succ h)

theorem set_appended_flatten_perm (K : List (List String)) :
    ∀ (i : Nat) (x : String), i < K.length →
      (K.set i (K.getD i [] ++ [x])).flatten.Perm (x :: K.flatten) := by
  induction K with
  | nil => intro i x h; simp at h
  | cons c K ih =>
    intro i x h
    cases i with
    | zero =>
      simp only [List.getD_cons_zero, List.set_cons_zero, List.flatten_cons,
        List.append_assoc, List.singleton_append]
      exact List.perm_middle
    | succ i =>
      simp only [List.getD_cons_succ, List.set_cons_succ, List.flatten_cons]
      have h' : i < K.length := by simpa using Nat.lt_of_succ_lt_succ h
      exact (List.Perm.append_left c (ih i x h')).trans List.perm_middle

theorem pyAppendFromEnd_prefix (K T : List (List String)) (k : Nat) (x : String)
    (hlo : T.length < k) (hhi : k ≤ K.length + T.length) :
    ∃ K1, pyAppendFromEnd (K ++ T) k x = some (K1 ++ T) ∧
      K1.length = K.length ∧ K1.flatten.Perm (x :: K.flatten) := by
  have hcond : 1 ≤ k ∧ k ≤ (K ++ T).length := by
    constructor
    · omega
    · simpa using hhi
  have hidx : (K ++ T).length - k < K.length := by
    simp only [List.length_append]
    omega
  refine ⟨K.set ((K ++ T).length - k) (K.getD ((K ++ T).length - k) [] ++ [x]), ?_, ?_, ?_⟩
  · rw [pyAppendFromEnd, if_pos hcond, getD_append_left K T _ _ hidx,
      set_append_left K T _ _ hidx]
  · exact List.length_set ..
  · exact set_appended_flatten_perm K _ x hidx

theorem distribGo_prefix (T : List (List String)) (l_idx rem : Nat) :
    ∀ (fs : List String) (K : List (List String)) (idx : Nat),
      T.length < l_idx + idx + rem →
      (∀ j, j < fs.length → l_idx + idx + j + rem ≤ K.length + T.length) →
      ∃ K1, distribGo (K ++ T) fs idx l_idx rem = some (K1 ++ T) ∧
        K1.length = K.length ∧ K1.flatten.Perm (fs ++ K.flatten) := by
  intro fs
  induction fs with
  | nil =>
    intro K idx _ _
    exact ⟨K, rfl, rfl, List.Perm.refl _⟩
  | cons f rest ih =>
    intro K idx hlo hhi
    have hk : l_idx + idx + rem ≤ K.length + T.length := by
      have := hhi 0 (by simp)
      omega
    obtain ⟨K1, heq, hlen, hperm⟩ := pyAppendFromEnd_prefix K T (l_idx + idx + rem) f hlo hk
    obtain ⟨K2, heq2, hlen2, hperm2⟩ := ih K1 (idx + 1)
      (by omega)
      (by
        intro j hj
        have := hhi (j + 1) (by simpa using Nat.succ_lt_succ hj)
        omega)
    refine ⟨K2, ?_, by omega, ?_⟩
    · simp only [distribGo, heq, heq2]
    · have : K2.flatten.Perm (f :: (rest ++ K.flatten)) :=
        hperm2.trans ((List.Perm.append_left rest hperm).trans List.perm_middle)
      simpa using this

theorem reverse_append_perm (a b c : List String) :
    ((a.reverse ++ b) ++ c).Perm ((b ++ c) ++ a) := by
  rw [List.append_assoc]
  exact List.perm_append_comm.trans (List.Perm.append_left _ (List.reverse_perm a))

theorem redistribute_ok (T : List (List String)) :
    ∀ (K : List (List String)) (l_idx : Nat),
      (∀ c ∈ T, c ≠ []) →
      l_idx + (T.map List.length).sum ≤ K.length →
      ∃ K1, redistribute (K ++ T) T.length l_idx = some K1 ∧
        K1.length = K.length ∧ K1.flatten.Perm ((K ++ T).flatten) := by
  induction T using List.reverseRecOn with
  | nil =>
    intro K l_idx _ _
    exact ⟨K, by simp [redistribute], rfl, by simp⟩
  | append_singleton T' c ih =>
    intro K l_idx hne hsum
    have hc : c ≠ [] := hne c (by simp)
    have hsum' : l_idx + ((T'.map List.length).sum + c.length) ≤ K.length := by
      simpa [List.map_append] using hsum
    -- one round of the while loop
    have hlast : (K ++ (T' ++ [c])).getLast? = some c := by
      rw [← List.append_assoc]
      exact List.getLast?_concat _
    have hdrop : (K ++ (T' ++ [c])).dropLast = K ++ T' := by
      rw [← List.append_assoc]
      exact List.dropLast_concat
    obtain ⟨K1, heq1, hlen1, hperm1⟩ := distribGo_prefix T' l_idx (T'.length + 1)
      c.reverse K 0
      (by omega)
      (by
        intro j hj
        simp only [List.length_reverse] at hj
        omega)
    obtain ⟨K2, heq2, hlen2, hperm2⟩ := ih K1 c.length
      (fun d hd => hne d (by simp [hd]))
      (by omega)
    have hcEmpty : c.isEmpty = false := by
      cases c with
      | nil => exact absurd rfl hc
      | cons a l => rfl
    refine ⟨K2, ?_, by omega, ?_⟩
    · have hlen : (T' ++ [c]).length = T'.length + 1 := by simp
      rw [hlen]
      simp only [redistribute, hlast, hdrop, hcEmpty, Bool.false_eq_true, if_false, heq1]
      exact heq2
    · have h1 : K2.flatten.Perm (K1.flatten ++ T'.flatten) := by
        simpa [List.flatten_append] using hperm2
      have h2 : (K1.flatten ++ T'.flatten).Perm ((c.reverse ++ K.flatten) ++ T'.flatten) :=
        List.Perm.append_right _ hperm1
      have h3 : ((c.reverse ++ K.flatten) ++ T'.flatten).Perm ((K.flatten ++ T'.flatten) ++ c) :=
        reverse_append_perm c K.flatten T'.flatten
      have hgoal : K2.flatten.Perm ((K.flatten ++ T'.flatten) ++ c) := (h1.trans h2).trans h3
      simpa [List.flatten_append] using hgoal

theorem chunksList_def (xs : List String) (q : Nat) :
    chunksList xs q = chunksGo xs.length xs q := rfl

theorem length_le_sum_lengths (C : List (List String)) (h : ∀ c ∈ C, c ≠ []) :
    C.length ≤ (C.map List.length).sum := by
  induction C with
  | nil => simp
  | cons c C ih =>
    have hc : 1 ≤ c.length := by
      have := h c (by simp)
      cases c with
      | nil => exact absurd rfl this
      | cons a l => simp
    have := ih (fun d hd => h d (by simp [hd]))
    simp only [List.length_cons, List.map_cons, List.sum_cons]
    omega

/-- C1, claim theorem. `group_worker_files(F, n)` with `n ≥ 1` always succeeds
(no `IndexError` in the redistribution loop) and the returned batches are an
exact partition of `F`: their concatenation is a permutation of the input, so
no file is dropped or duplicated — including when the remainder loop runs. -/
theorem group_worker_files_exact_partition (files : List String) (n : Nat) (hn : 1 ≤ n) :
    ∃ bs, group_worker_files files n = some bs ∧ bs.flatten.Perm files := by
  have hn0 : n ≠ 0 := by omega
  have key : group_worker_files files n =
      redistribute (chunksList (pySorted files) (max ((pySorted files).length / n) 1))
        ((chunksList (pySorted files) (max ((pySorted files).length / n) 1)).length - n) 0 := by
    unfold group_worker_files
    rw [if_neg hn0]
  rw [key]
  have hsperm : (pySorted files).Perm files := List.perm_insertionSort _ _
  have hq1 : 1 ≤ max ((pySorted files).length / n) 1 := le_max_right _ _
  rw [chunksList_def]
  set s := pySorted files with hsdef
  set q := max (s.length / n) 1 with hqdef
  set C := chunksGo s.length s q with hCdef
  have hflat : C.flatten = s := chunksGo_flatten s.length s q hq1 le_rfl
  have hne : ∀ c ∈ C, c ≠ [] := fun c hc => chunksGo_ne_nil s.length s q c hq1 hc
  by_cases hcn : C.length ≤ n
  · rw [Nat.sub_eq_zero_of_le hcn]
    exact ⟨C, rfl, hflat ▸ hsperm⟩
  · push_neg at hcn
    have hsum : (C.map List.length).sum = s.length := by
      rw [← List.length_flatten, hflat]
    have hms : n < s.length :=
      Nat.lt_of_lt_of_le hcn (le_trans (length_le_sum_lengths C hne) (le_of_eq hsum))
    have hqe : q = s.length / n := by
      rw [hqdef]
      exact Nat.max_eq_left ((Nat.one_le_div_iff (by omega)).mpr (le_of_lt hms))
    have hKsum : ((C.take n).map List.length).sum = n * q :=
      chunksGo_take_sizes n s.length s q hq1 le_rfl hcn
    have hKT : C.take n ++ C.drop n = C := List.take_append_drop n C
    have hsplit : ((C.take n).map List.length).sum + ((C.drop n).map List.length).sum
        = s.length := by
      rw [← hsum, ← hKT]
      simp [List.take_append_drop]
    have hmod : n * q + s.length % n = s.length := by
      rw [hqe]
      exact Nat.div_add_mod s.length n
    have hmodlt : s.length % n < n := Nat.mod_lt _ (by omega)
    have hKlen : (C.take n).length = n := by
      rw [List.length_take]
      omega
    have hbound : 0 + ((C.drop n).map List.length).sum ≤ (C.take n).length := by
      rw [hKlen]
      omega
    obtain ⟨K1, heq, _, hperm⟩ := redistribute_ok (C.drop n) (C.take n) 0
      (fun c hc => hne c (List.mem_of_mem_drop hc)) hbound
    rw [← hKT, List.length_append, hKlen]
    have hfuel : n + (C.drop n).length - n = (C.drop n).length := by omega
    rw [hfuel]
    refine ⟨K1, heq, ?_⟩
    have : K1.flatten.Perm (C.flatten) := by
      rw [← hKT] at hflat ⊢
      exact hperm
    rw [hflat] at this
    exact this.trans hsperm

/-- C1 witness: the partition theorem applied at a concrete input. -/
theorem group_worker_files_exact_partition_witness :
    1 ≤ 2 ∧ ∃ bs, group_worker_files ["b", "a", "c"] 2 = some bs ∧
      bs.flatten.Perm ["b", "a", "c"] :=
  ⟨by decide, group_worker_files_exact_partition ["b", "a", "c"] 2 (by decide)⟩

/-- C9 counterexample: with 7 files and 4 workers the redistribution loop runs
three rounds and produces the batch `["c", "f", "e"]`, which is not sorted:
the claim that every returned batch is internally sorted is false. -/
theorem group_worker_files_unsorted_batch_cex :
    group_worker_files ["a", "b", "c", "d", "e", "f", "g"] 4 =
      some [["a"], ["b"], ["c", "f", "e"], ["d", "g"]] ∧
    ¬ List.Sorted pyStrLe ["c", "f", "e"] := by
  constructor
  · decide
  · decide

/-- C9, amended claim theorem.  When simple chunking yields at most
`no_groups` chunks, the remainder-redistribution loop does not run and every
returned batch is a contiguous slice of the sorted file list, hence internally
sorted ascending; after redistribution a batch may be unsorted (see the
counterexample). -/
theorem group_worker_files_sorted_of_no_remainder (files : List String) (n : Nat)
    (hn : 1 ≤ n)
    (hnorem : (chunksList (pySorted files) (max ((pySorted files).length / n) 1)).length ≤ n) :
    ∃ bs, group_worker_files files n = some bs ∧
      ∀ b ∈ bs, List.Sorted pyStrLe b := by
  have hn0 : n ≠ 0 := by omega
  have key : group_worker_files files n =
      redistribute (chunksList (pySorted files) (max ((pySorted files).length / n) 1))
        ((chunksList (pySorted files) (max ((pySorted files).length / n) 1)).length - n) 0 := by
    unfold group_worker_files
    rw [if_neg hn0]
  rw [key, Nat.sub_eq_zero_of_le hnorem]
  refine ⟨_, rfl, ?_⟩
  intro b hb
  rw [chunksList_def] at hb
  exact chunksGo_sorted _ _ _ b (List.sorted_insertionSort pyStrLe files) hb

/-- C9 amended witness: two files, two workers — no remainder, both batches
sorted. -/
theorem group_worker_files_sorted_of_no_remainder_witness :
    (1 ≤ 2 ∧
      (chunksList (pySorted ["b", "a"]) (max ((pySorted ["b", "a"]).length / 2) 1)).length ≤ 2) ∧
    ∃ bs, group_worker_files ["b", "a"] 2 = some bs ∧
      ∀ b ∈ bs, List.Sorted pyStrLe b :=
  ⟨⟨by decide, by decide⟩,
    group_worker_files_sorted_of_no_remainder ["b", "a"] 2 (by decide) (by decide)⟩

/-! ### Row counts, schema and schema updates

`TRowCount` is `Dict[str, int]`, modelled as an association list.
The `Schema` class is a collaborator outside `src/`; it is modelled from the
spec's contract (§3, §4.3): a named collection of tables, each a map from
column name to a type tag, where `update_table` merges added columns and
raises a column-coercion conflict when an incoming column is incompatible
with the existing one (modelled as: different type tag). -/

abbrev TRowCount := List (String × Nat)

/-- Update-or-append for an association list (Python `d[k] = v`). -/
def assocSet {β : Type} (l : List (String × β)) (k : String) (v : β) : List (String × β) :=
  match l with
  | [] => [(k, v)]
  | (k2, v2) :: rest => if k2 = k then (k, v) :: rest else (k2, v2) :: assocSet rest k v

/-- Modelled from the spec: `increase_row_count` (`dlt.common.utils`, not under
`src/`) — add `n` to the per-table counter, creating the key at `n` when
absent. -/
def increase_row_count (rc : TRowCount) (t : String) (n : Nat) : TRowCount :=
  match rc.lookup t with
  | some m => assocSet rc t (m + n)
  | none => rc ++ [(t, n)]

/-- Modelled from the spec: `merge_row_count` (`dlt.common.utils`, not under
`src/`) — per-key addition of two row-count mappings (§3 RowCount). -/
def merge_row_count (rc delta : TRowCount) : TRowCount :=
  delta.foldl (fun acc p => increase_row_count acc p.1 p.2) rc

/-- One partial table delta of a schema update: added/widened columns for one
table (column name → type tag). -/
structure TPartialTableSchema where
  table_name : String
  columns : List (String × Nat)
deriving DecidableEq

/-- `TSchemaUpdate = Dict[str, List[TPartialTableSchema]]`. -/
abbrev TSchemaUpdate := List (String × List TPartialTableSchema)

/-- Modelled from the spec: the black-boxed `Schema` value (§3) — a named
catalog of tables, each mapping column names to a type tag. -/
structure SchemaM where
  name : String
  tables : List (String × List (String × Nat))
deriving DecidableEq

/-- Modelled from the spec: `Schema.to_dict()` — the value-form snapshot
shipped to workers; in this model the schema already is a value. -/
def schema_to_dict (s : SchemaM) : SchemaM := s

/-- Modelled from the spec: merging one partial table's columns into the
current columns; `none` is the column-coercion conflict (incompatible type for
an existing column). -/
def addColumns (cols : List (String × Nat)) : List (String × Nat) → Option (List (String × Nat))
  | [] => some cols
  | (c, ty) :: rest =>
    match cols.lookup c with
    | some ty2 => if ty2 = ty then addColumns cols rest else none
    | none => addColumns (cols ++ [(c, ty)]) rest

/-- Modelled from the spec: `Schema.update_table(partial_table)` — merge one
table's delta, `none` on a column-coercion conflict. -/
def schema_update_table (s : SchemaM) (pt : TPartialTableSchema) : Option SchemaM :=
  match addColumns ((s.tables.lookup pt.table_name).getD []) pt.columns with
  | none => none
  | some cols2 => some { s with tables := assocSet s.tables pt.table_name cols2 }

/-- Sequential application of one table's deltas; on conflict the error carries
the partially mutated schema (the Python `Schema` object is mutated in place,
so prior deltas stay applied). -/
def apply_partials (s : SchemaM) : List TPartialTableSchema → Except SchemaM SchemaM
  | [] => .ok s
  | pt :: rest =>
    match schema_update_table s pt with
    | none => .error s
    | some s2 => apply_partials s2 rest

/-- One `TSchemaUpdate`'s tables, applied in order. -/
def apply_schema_update (s : SchemaM) : TSchemaUpdate → Except SchemaM SchemaM
  | [] => .ok s
  | (_, tus) :: rest =>
    match apply_partials s tus with
    | .error s2 => .error s2
    | .ok s2 => apply_schema_update s2 rest

/-- `Normalize.update_table(schema, schema_updates)` (normalize.py lines
162-168): apply every partial table of every update in order; a conflict
aborts the merge, leaving the schema partially updated. -/
def update_table (s : SchemaM) : List TSchemaUpdate → Except SchemaM SchemaM
  | [] => .ok s
  | u :: rest =>
    match apply_schema_update s u with
    | .error s2 => .error s2
    | .ok s2 => update_table s2 rest

/-! ### Destination capabilities and load storages -/

/-- `DestinationCapabilities`: the three fields `w_normalize_files` reads.
`supported_loader_file_formats` can be `None` (the TODO comment at line 88). -/
structure DestinationCapabilities where
  preferred_loader_file_format : Option String
  preferred_staging_file_format : Option String
  supported_loader_file_formats : Option (List String)
deriving DecidableEq

/-- Python `caps.supported_loader_file_formats or []` (line 89): `None` (and
the empty list) evaluate to a fresh empty list; a non-empty list is the caps
object's own list, so appending to it mutates the capabilities. -/
def pyOrEmpty : Option (List String) → List String
  | none => []
  | some l => l

/-- One `LoadStorage` instance as the worker observes it: the write format it
was constructed with, the supported-formats list passed to the constructor,
the files it has written, and whether `close_writers` ran. -/
structure LoadStorageM where
  write_format : String
  supported : List String
  written : List String
  closed : Bool
deriving DecidableEq

/-- Result of `_get_load_storage`: the routed write-format key (also the cache
key), the possibly-mutated capabilities, and the storage cache. -/
structure GLSResult where
  key : String
  caps : DestinationCapabilities
  stores : List (String × LoadStorageM)
deriving DecidableEq

/-- `_get_load_storage(file_format)` (normalize.py lines 87-102).  Parquet
input with parquet supported appends `"arrow"` to the caps' supported list
(the in-place `supported_formats.append("arrow")` hack) and routes to
`"arrow"`; every other case routes to the preferred loader format, falling
back to the staging format.  A `None` routed format makes the `LoadStorage`
constructor raise, modelled as `none`. -/
def get_load_storage (caps : DestinationCapabilities)
    (stores : List (String × LoadStorageM)) (file_format : Option String) :
    Option GLSResult :=
  let supported := pyOrEmpty caps.supported_loader_file_formats
  let branch : Option String × DestinationCapabilities × List String :=
    if file_format = some "parquet" then
      if "parquet" ∈ supported then
        (some "arrow",
          { caps with supported_loader_file_formats := some (supported ++ ["arrow"]) },
          supported ++ ["arrow"])
      else
        (caps.preferred_loader_file_format.orElse
          (fun _ => caps.preferred_staging_file_format), caps, supported)
    else
      (caps.preferred_loader_file_format.orElse
        (fun _ => caps.preferred_staging_file_format), caps, supported)
  match branch with
  | (none, _, _) => none
  | (some key, caps2, sup2) =>
    match stores.lookup key with
    | some _ => some ⟨key, caps2, stores⟩
    | none => some ⟨key, caps2, stores ++ [(key, ⟨key, sup2, [], false⟩)]⟩

/-- C5, claim theorem.  The write-format selection rule of
`_get_load_storage`: a parquet input with parquet among the destination's
supported loader formats is routed to `"arrow"` and `"arrow"` is appended to
the supported-formats list handed to the worker's load storages; in every
other case the routed format is `preferred_loader_file_format`, falling back
to `preferred_staging_file_format` when the preferred loader format is null
(both null: the storage constructor fails). -/
theorem get_load_storage_write_format_selection (caps : DestinationCapabilities)
    (stores : List (String × LoadStorageM)) (ff : Option String) :
    Option.map GLSResult.key (get_load_storage caps stores ff) =
      (if ff = some "parquet" ∧ "parquet" ∈ pyOrEmpty caps.supported_loader_file_formats
       then some "arrow"
       else caps.preferred_loader_file_format.orElse
         (fun _ => caps.preferred_staging_file_format)) ∧
    Option.map (fun r => r.caps.supported_loader_file_formats)
        (get_load_storage caps stores ff) =
      Option.map (fun _ =>
        if ff = some "parquet" ∧ "parquet" ∈ pyOrEmpty caps.supported_loader_file_formats
        then some (pyOrEmpty caps.supported_loader_file_formats ++ ["arrow"])
        else caps.supported_loader_file_formats)
        (get_load_storage caps stores ff) := by
  unfold get_load_storage
  by_cases hpq : ff = some "parquet"
  · by_cases hsup : "parquet" ∈ pyOrEmpty caps.supported_loader_file_formats
    · cases hL : stores.lookup "arrow" <;> simp [hpq, hsup, hL]
    · cases hfb : (caps.preferred_loader_file_format.orElse
          (fun _ => caps.preferred_staging_file_format)) with
      | none => simp [hpq, hsup, hfb]
      | some k => cases hL : stores.lookup k <;> simp [hpq, hsup, hfb, hL]
  · cases hfb : (caps.preferred_loader_file_format.orElse
        (fun _ => caps.preferred_staging_file_format)) with
    | none => simp [hpq, hfb]
    | some k => cases hL : stores.lookup k <;> simp [hpq, hfb, hL]

/-! ### The worker `w_normalize_files` (normalize.py lines 72-160) -/

/-- Splitting a character list on `'.'` (Python `str.split(".")`). -/
def splitOnDot : List Char → List (List Char)
  | [] => [[]]
  | c :: rest =>
    if c = '.' then [] :: splitOnDot rest
    else
      match splitOnDot rest with
      | [] => [[c]]
      | p :: ps => (c :: p) :: ps

/-- Parsed extracted-file name. -/
structure TParsedNormalizeFileName where
  schema_name : String
  table_name : String
  file_format : String
  uniq_id : String
deriving DecidableEq

/-- Modelled from the spec:
`NormalizeStorage.parse_normalize_file_name` (not under `src/`) — filename
grammar `<schema_name>.<table_name>.<file_format>.<uniq_id>.<ext>` (§6);
a non-conforming name raises malformed-name, modelled as `none`. -/
def parse_normalize_file_name (p : String) : Option TParsedNormalizeFileName :=
  match (splitOnDot p.data).map (fun cs => String.mk cs) with
  | [sn, tn, ff, uid, _ext] => some ⟨sn, tn, ff, uid⟩
  | _ => none

/-- What one item-normalizer invocation reports back: partial schema updates,
the item count, the per-table row counts, and the output files it wrote
through its load storage. -/
structure NormResult where
  partial_updates : List TSchemaUpdate
  items_count : Nat
  r_counts : TRowCount
  outputs : List String
deriving DecidableEq

/-- Collaborators of the worker that live outside `src/`, modelled from the
spec: `schema.naming.normalize_table_identifier` (deterministic
canonicalization, §3) and the item normalizers
(`(file_format, file, root_table) ↦ (schema_updates, items_count, row_counts)`
plus the files written, §6; `.error` is a raised exception). -/
structure WorkerEnv where
  naming : String → String
  normalize : String → String → String → Except Unit NormResult

/-- `tuple returned by the worker` (line 30):
`(schema_updates, total_items, closed_files, row_counts)`. -/
structure TWorkerRV where
  schema_updates : List TSchemaUpdate
  total_items : Nat
  closed_files : List String
  row_counts : TRowCount
deriving DecidableEq

/-- Mutable state of one `w_normalize_files` run: the capabilities object, the
per-write-format storage cache, the binding of the Python variable
`load_storage` (rebound at lines 107 and 135), and the accumulators. -/
structure WState where
  caps : DestinationCapabilities
  stores : List (String × LoadStorageM)
  cur_key : String
  schema_updates : List TSchemaUpdate
  total_items : Nat
  row_counts : TRowCount
  root_tables : List String
  populated_root_tables : List String
  empty_jobs : List (String × String)
deriving DecidableEq

/-- Set-insert keeping first-seen order (`root_tables.add(...)`). -/
def insertOnce (l : List String) (x : String) : List String :=
  if x ∈ l then l else l ++ [x]

/-- Append output files to the storage cached under `key`. -/
def storeAppendWritten (stores : List (String × LoadStorageM)) (key : String)
    (outs : List String) : List (String × LoadStorageM) :=
  stores.map (fun p => if p.1 = key then (p.1, { p.2 with written := p.2.written ++ outs }) else p)

/-- `close_writers(load_id)` on the storage cached under `key`. -/
def storeClose (stores : List (String × LoadStorageM)) (key : String) :
    List (String × LoadStorageM) :=
  stores.map (fun p => if p.1 = key then (p.1, { p.2 with closed := true }) else p)

/-- `closed_files()` of the storage cached under `key` (line 160). -/
def closedFilesOf (stores : List (String × LoadStorageM)) (key : String) : List String :=
  ((stores.lookup key).map LoadStorageM.written).getD []

/-- Every file any storage of the cache has written. -/
def allWrittenFiles (stores : List (String × LoadStorageM)) : List String :=
  (stores.map (fun p => p.2.written)).flatten

/-- The body of the `for extracted_items_file in extracted_items_files` loop
(lines 125-144): parse the name, canonicalize the table, record it, route the
file's format through `_get_items_normalizer` / `_get_load_storage` (rebinding
`load_storage`), run the normalizer and accumulate.  `.error` carries the
state at the raise (the `except`/`finally` blocks still see it). -/
def process_file (env : WorkerEnv) (_schema : SchemaM) (st : WState) (f : String) :
    Except WState WState :=
  match parse_normalize_file_name f with
  | none => .error st
  | some parsed =>
    let root_table_name := env.naming parsed.table_name
    let st := { st with root_tables := insertOnce st.root_tables root_table_name }
    match get_load_storage st.caps st.stores (some parsed.file_format) with
    | none => .error st
    | some gls =>
      let st := { st with caps := gls.caps, stores := gls.stores, cur_key := gls.key }
      match env.normalize parsed.file_format f root_table_name with
      | .error _ => .error st
      | .ok res =>
        let st := { st with
          stores := storeAppendWritten st.stores gls.key res.outputs,
          schema_updates := st.schema_updates ++ res.partial_updates,
          total_items := st.total_items + res.items_count,
          row_counts := merge_row_count st.row_counts res.r_counts }
        let st := if res.items_count > 0
          then { st with
            populated_root_tables := insertOnce st.populated_root_tables root_table_name }
          else st
        .ok { st with row_counts := increase_row_count st.row_counts root_table_name 0 }

/-- The whole file loop; stops at the first raised exception. -/
def process_files (env : WorkerEnv) (schema : SchemaM) :
    WState → List String → Except WState WState
  | st, [] => .ok st
  | st, f :: rest =>
    match process_file env schema st f with
    | .error st2 => .error st2
    | .ok st2 => process_files env schema st2 rest

/-- Name of an empty-job file (content-free in this model). -/
def emptyFileName (load_id schema_name table_name : String) : String :=
  schema_name ++ "." ++ table_name ++ "." ++ load_id ++ ".empty"

/-- One iteration of the empty-jobs loop: skip tables missing from the schema,
else write one empty file through the storage currently bound to the Python
variable `load_storage` (`st.cur_key`). -/
def empty_job_step (schema : SchemaM) (load_id : String) (st : WState) (t : String) : WState :=
  if (schema.tables.lookup t).isSome then
    { st with
      stores := storeAppendWritten st.stores st.cur_key
        [emptyFileName load_id schema.name t],
      empty_jobs := st.empty_jobs ++ [(t, st.cur_key)] }
  else st

/-- The empty-jobs loop (lines 145-151): for every root table without items
that exists in the schema, write one empty file through the Python variable
`load_storage` — the storage bound *last* (`st.cur_key`), not necessarily the
default one.  `empty_jobs` records `(table, write format used)`. -/
def write_empty_jobs (schema : SchemaM) (load_id : String) (st : WState) : WState :=
  (st.root_tables.filter (fun t => t ∉ st.populated_root_tables)).foldl
    (empty_job_step schema load_id) st

instance {ε α : Type} [DecidableEq ε] [DecidableEq α] : DecidableEq (Except ε α)
  | .error e, .error e2 =>
    if h : e = e2 then isTrue (by rw [h]) else isFalse (by simp [h])
  | .error _, .ok _ => isFalse (by simp)
  | .ok _, .error _ => isFalse (by simp)
  | .ok a, .ok b =>
    if h : a = b then isTrue (by rw [h]) else isFalse (by simp [h])

/-- Everything `w_normalize_files` leaves behind: the returned tuple (or the
re-raised exception) plus the final capabilities and storage cache. -/
structure WorkerOut where
  result : Except Unit TWorkerRV
  caps : DestinationCapabilities
  stores : List (String × LoadStorageM)
  empty_jobs : List (String × String)
deriving DecidableEq

/-- `Normalize.w_normalize_files` (lines 72-160): build the default load
storage for the preferred format (line 107), process all files, write empty
jobs, and in a `finally` close the writers of the storage bound last; the
returned `closed_files` are those of that same storage (line 160). -/
def w_normalize_files (env : WorkerEnv) (destination_caps : DestinationCapabilities)
    (stored_schema : SchemaM) (load_id : String)
    (extracted_items_files : List String) : WorkerOut :=
  let schema := stored_schema
  match get_load_storage destination_caps [] destination_caps.preferred_loader_file_format with
  | none => ⟨.error (), destination_caps, [], []⟩
  | some g0 =>
    let st0 : WState := ⟨g0.caps, g0.stores, g0.key, [], 0, [], [], [], []⟩
    match process_files env schema st0 extracted_items_files with
    | .error st =>
      let st2 := { st with stores := storeClose st.stores st.cur_key }
      ⟨.error (), st2.caps, st2.stores, st2.empty_jobs⟩
    | .ok st =>
      let st := write_empty_jobs schema load_id st
      let st2 := { st with stores := storeClose st.stores st.cur_key }
      ⟨.ok ⟨st2.schema_updates, st2.total_items,
          closedFilesOf st2.stores st2.cur_key, st2.row_counts⟩,
        st2.caps, st2.stores, st2.empty_jobs⟩

/-! ### The conflict-retry step of `map_parallel` (normalize.py lines 204-233) -/

/-- The parameter tuple tracked per task:
`(config, normalize_storage_config, load_storage_config, stored_schema,
load_id, files)`.  The three configuration objects are opaque tokens. -/
structure WParams where
  config : Nat
  normalize_storage_config : Nat
  load_storage_config : Nat
  stored_schema : SchemaM
  load_id : String
  files : List String
deriving DecidableEq

/-- The coordinator's state inside the gather loop of `map_parallel`: the
authoritative schema, the accumulated updates/metrics/row counts, the task
list (a task is a future identity paired with its parameter tuple), and the
files removed with `os.remove`. -/
structure GatherState where
  schema : SchemaM
  schema_updates : List TSchemaUpdate
  row_counts : TRowCount
  files_metric : Nat
  items_metric : Nat
  tasks : List (Nat × WParams)
  deleted_files : List String
  next_task_id : Nat
deriving DecidableEq

/-- Lines 207-233 of `map_parallel`, processing one completed task: merge its
schema updates; on success accumulate updates, metrics and row counts; on a
`CannotCoerceColumnException` delete the files the task reported
(`result[2]`), re-snapshot the schema to value form, rebuild the parameter
tuple with the fresh snapshot (`params[:3] + (schema_dict,) + params[4:]`),
resubmit, and append the new task.  Either way the finished task is removed
from the task list. -/
def process_done_task (st : GatherState) (task : Nat × WParams) (result : TWorkerRV) :
    GatherState :=
  match update_table st.schema result.schema_updates with
  | .ok schema2 =>
    { st with
      schema := schema2,
      schema_updates := st.schema_updates ++ result.schema_updates,
      files_metric := st.files_metric + result.closed_files.length,
      items_metric := st.items_metric + result.total_items,
      row_counts := merge_row_count st.row_counts result.row_counts,
      tasks := st.tasks.erase task }
  | .error schema2 =>
    let params2 := { task.2 with stored_schema := schema_to_dict schema2 }
    { st with
      schema := schema2,
      deleted_files := st.deleted_files ++ result.closed_files,
      tasks := (st.tasks ++ [(st.next_task_id, params2)]).erase task,
      next_task_id := st.next_task_id + 1 }

/-! ### Capability invariance through a worker run (C8) -/

/-- The state a Python `try`/`except` observer sees: the payload of either
outcome. -/
def exceptState {α : Type} : Except α α → α
  | .ok a => a
  | .error a => a

/-- What a single `_get_load_storage` call can do to the capabilities:
leave them alone, or append `"arrow"` to a supported list containing
`"parquet"`. -/
theorem get_load_storage_caps_cases (caps : DestinationCapabilities)
    (stores : List (String × LoadStorageM)) (ff : Option String) (res : GLSResult)
    (h : get_load_storage caps stores ff = some res) :
    res.caps = caps ∨
    ("parquet" ∈ pyOrEmpty caps.supported_loader_file_formats ∧
      res.caps = { caps with supported_loader_file_formats := some (pyOrEmpty caps.supported_loader_file_formats ++ ["arrow"]) }) := by
  unfold get_load_storage at h
  by_cases hpq : ff = some "parquet"
  · by_cases hsup : "parquet" ∈ pyOrEmpty caps.supported_loader_file_formats
    · cases hL : stores.lookup "arrow" <;>
        · simp [hpq, hsup, hL] at h
          right
          exact ⟨hsup, by rw [← h]⟩
    · cases hfb : (caps.preferred_loader_file_format.orElse
          (fun _ => caps.preferred_staging_file_format)) with
      | none => simp [hpq, hsup, hfb] at h
      | some k =>
        cases hL : stores.lookup k <;>
          · simp [hpq, hsup, hfb, hL] at h
            left
            rw [← h]
  · cases hfb : (caps.preferred_loader_file_format.orElse
        (fun _ => caps.preferred_staging_file_format)) with
    | none => simp [hpq, hfb] at h
    | some k =>
      cases hL : stores.lookup k <;>
        · simp [hpq, hfb, hL] at h
          left
          rw [← h]

/-- Capability evolution a worker run permits: both preferred formats frozen,
`"parquet"`-membership of the supported list stable, and full equality when
parquet is not supported. -/
def capsStable (a b : DestinationCapabilities) : Prop :=
  b.preferred_loader_file_format = a.preferred_loader_file_format ∧
  b.preferred_staging_file_format = a.preferred_staging_file_format ∧
  ("parquet" ∈ pyOrEmpty b.supported_loader_file_formats ↔
    "parquet" ∈ pyOrEmpty a.supported_loader_file_formats) ∧
  ("parquet" ∉ pyOrEmpty a.supported_loader_file_formats → b = a)

theorem capsStable_refl (a : DestinationCapabilities) : capsStable a a :=
  ⟨rfl, rfl, Iff.rfl, fun _ => rfl⟩

theorem capsStable_trans {a b c : DestinationCapabilities}
    (h1 : capsStable a b) (h2 : capsStable b c) : capsStable a c := by
  obtain ⟨p1, s1, m1, e1⟩ := h1
  obtain ⟨p2, s2, m2, e2⟩ := h2
  refine ⟨p2.trans p1, s2.trans s1, m2.trans m1, fun hn => ?_⟩
  have hb : b = a := e1 hn
  have hnb : "parquet" ∉ pyOrEmpty b.supported_loader_file_formats := by
    rw [hb]; exact hn
  rw [e2 hnb, hb]

theorem get_load_storage_capsStable (caps : DestinationCapabilities)
    (stores : List (String × LoadStorageM)) (ff : Option String) (res : GLSResult)
    (h : get_load_storage caps stores ff = some res) : capsStable caps res.caps := by
  rcases get_load_storage_caps_cases caps stores ff res h with heq | ⟨hsup, heq⟩
  · rw [heq]; exact capsStable_refl caps
  · rw [heq]
    refine ⟨rfl, rfl, ?_, fun hn => absurd hsup hn⟩
    simp [pyOrEmpty, hsup]

theorem process_file_capsStable (env : WorkerEnv) (schema : SchemaM) (st : WState)
    (f : String) : capsStable st.caps (exceptState (process_file env schema st f)).caps := by
  unfold process_file
  cases hp : parse_normalize_file_name f with
  | none =>
    simp only [hp]
    exact capsStable_refl _
  | some parsed =>
    simp only [hp]
    cases hg : get_load_storage st.caps st.stores (some parsed.file_format) with
    | none =>
      simp only [hg]
      exact capsStable_refl _
    | some gls =>
      have hstable : capsStable st.caps gls.caps :=
        get_load_storage_capsStable _ _ _ _ hg
      simp only [hg]
      cases hn : env.normalize parsed.file_format f (env.naming parsed.table_name) with
      | error e =>
        simp only [hn, exceptState]
        exact hstable
      | ok res =>
        simp only [hn, exceptState]
        split <;> exact hstable

theorem process_files_capsStable (env : WorkerEnv) (schema : SchemaM) :
    ∀ (files : List String) (st : WState),
      capsStable st.caps (exceptState (process_files env schema st files)).caps := by
  intro files
  induction files with
  | nil => intro st; exact capsStable_refl _
  | cons f rest ih =>
    intro st
    cases hf : process_file env schema st f with
    | error st2 =>
      have h1 := process_file_capsStable env schema st f
      rw [hf] at h1
      simpa [process_files, hf, exceptState] using h1
    | ok st2 =>
      have h1 := process_file_capsStable env schema st f
      rw [hf] at h1
      have h2 := ih st2
      simpa [process_files, hf, exceptState] using capsStable_trans h1 h2

theorem empty_job_step_caps (schema : SchemaM) (lid : String) (st : WState) (t : String) :
    (empty_job_step schema lid st t).caps = st.caps := by
  unfold empty_job_step
  split <;> rfl

theorem foldl_empty_job_caps (schema : SchemaM) (lid : String) :
    ∀ (l : List String) (st : WState),
      (List.foldl (empty_job_step schema lid) st l).caps = st.caps := by
  intro l
  induction l with
  | nil => intro st; rfl
  | cons t rest ih =>
    intro st
    rw [List.foldl_cons, ih, empty_job_step_caps]

theorem write_empty_jobs_caps (schema : SchemaM) (lid : String) (st : WState) :
    (write_empty_jobs schema lid st).caps = st.caps :=
  foldl_empty_job_caps schema lid _ st

/-- C8, amended claim theorem.  A `w_normalize_files` run never touches the
preferred-format fields of the destination capabilities, and if `"parquet"`
is not among the supported loader formats the capabilities value is returned
entirely unchanged.  (When parquet *is* supported and a parquet file — or a
parquet preferred format — is routed, `"arrow"` is appended to the supported
list; see the counterexample.) -/
theorem w_normalize_files_caps_invariant (env : WorkerEnv)
    (caps : DestinationCapabilities) (schema : SchemaM) (lid : String)
    (files : List String) :
    (w_normalize_files env caps schema lid files).caps.preferred_loader_file_format =
      caps.preferred_loader_file_format ∧
    (w_normalize_files env caps schema lid files).caps.preferred_staging_file_format =
      caps.preferred_staging_file_format ∧
    ("parquet" ∉ pyOrEmpty caps.supported_loader_file_formats →
      (w_normalize_files env caps schema lid files).caps = caps) := by
  unfold w_normalize_files
  cases hg0 : get_load_storage caps [] caps.preferred_loader_file_format with
  | none => exact ⟨rfl, rfl, fun _ => rfl⟩
  | some g0 =>
    have h0 : capsStable caps g0.caps := get_load_storage_capsStable _ _ _ _ hg0
    simp only
    cases hpf : process_files env schema ⟨g0.caps, g0.stores, g0.key, [], 0, [], [], [], []⟩ files with
    | error st =>
      have h1 := process_files_capsStable env schema files
        ⟨g0.caps, g0.stores, g0.key, [], 0, [], [], [], []⟩
      rw [hpf] at h1
      have h2 : capsStable caps st.caps := capsStable_trans h0 h1
      exact ⟨h2.1, h2.2.1, h2.2.2.2⟩
    | ok st =>
      have h1 := process_files_capsStable env schema files
        ⟨g0.caps, g0.stores, g0.key, [], 0, [], [], [], []⟩
      rw [hpf] at h1
      have h2 : capsStable caps st.caps := capsStable_trans h0 h1
      simp only [write_empty_jobs_caps]
      exact ⟨h2.1, h2.2.1, h2.2.2.2⟩

/-! ### Concrete worker scenarios -/

/-- An identity naming convention (already-canonical table names). -/
def namingId : String → String := fun t => t

/-- Normalizer oracle: parquet files yield two rows for their table together
with a schema delta typing column `x` as tag `1`; jsonl files yield one row
for their table; every file writes one output file named after it. -/
def envConflict : WorkerEnv :=
  ⟨namingId, fun ff f _rt =>
    if ff = "parquet"
    then .ok ⟨[[("t2", [⟨"t2", [("x", 1)]⟩])]], 2, [("t2", 2)], [f ++ ".out"]⟩
    else .ok ⟨[], 1, [("t1", 1)], [f ++ ".out"]⟩⟩

/-- Normalizer oracle: parquet files yield two rows and one output file;
jsonl files yield zero rows and no output. -/
def envZeroRows : WorkerEnv :=
  ⟨namingId, fun ff f _rt =>
    if ff = "parquet" then .ok ⟨[], 2, [], [f ++ ".out"]⟩ else .ok ⟨[], 0, [], []⟩⟩

/-- A destination that prefers `jsonl` and supports `jsonl` and `parquet`. -/
def capsJP : DestinationCapabilities := ⟨some "jsonl", none, some ["jsonl", "parquet"]⟩

/-- A schema that already has table `t2` with column `x` of type tag `2`. -/
def schemaT2 : SchemaM := ⟨"s", [("t2", [("x", 2)])]⟩

/-- A two-format batch: one jsonl file and one parquet file, parquet last. -/
def filesTwoFormats : List String := ["s.t1.jsonl.001.jsonl", "s.t2.parquet.002.parquet"]

/-- The task parameters under which `filesTwoFormats` was submitted. -/
def paramsTwoFormats : WParams := ⟨0, 0, 0, schemaT2, "123", filesTwoFormats⟩

/-- Coordinator state holding the authoritative schema `schemaT2` and the one
submitted task. -/
def gatherTwoFormats : GatherState := ⟨schemaT2, [], [], 0, 0, [(0, paramsTwoFormats)], [], 1⟩

/-- The worker-returned tuple of the `envConflict` run on `filesTwoFormats`
(checked by evaluation in the theorems below). -/
def rvTwoFormats : TWorkerRV :=
  ⟨[[("t2", [⟨"t2", [("x", 1)]⟩])]], 3, ["s.t2.parquet.002.parquet.out"],
    [("t1", 1), ("t2", 2)]⟩

/-- C7, failing-input theorem.  On a batch whose files use two write formats
(`jsonl` routed to the preferred format, `parquet` routed to `arrow`), the
worker returns successfully, yet only the last-bound storage (`arrow`) has its
writers closed: the `jsonl` storage the task instantiated — which wrote a
file — is left with `closed = false`, contradicting the claim that
`close_writers` runs for every instantiated Load Storage. -/
theorem w_normalize_files_unclosed_writer_bug :
    (w_normalize_files envConflict capsJP schemaT2 "123" filesTwoFormats).result =
      .ok rvTwoFormats ∧
    (w_normalize_files envConflict capsJP schemaT2 "123" filesTwoFormats).stores.lookup
        "jsonl" =
      some ⟨"jsonl", ["jsonl", "parquet"], ["s.t1.jsonl.001.jsonl.out"], false⟩ ∧
    Option.map LoadStorageM.closed
        ((w_normalize_files envConflict capsJP schemaT2 "123" filesTwoFormats).stores.lookup
          "arrow") =
      some true := by
  exact ⟨by decide, by decide, by decide⟩

/-- C3, failing-input theorem.  The worker's returned `closed_files` come only
from the last-bound storage, so on a two-format batch the conflict path of
`map_parallel` deletes only part of what the task produced: merging
`rvTwoFormats` into the authoritative schema raises a coercion conflict, the
retry step deletes exactly the reported file, and the jsonl output the task
also produced is neither reported nor deleted. -/
theorem map_parallel_retry_misses_produced_file_bug :
    (w_normalize_files envConflict capsJP schemaT2 "123" filesTwoFormats).result =
      .ok rvTwoFormats ∧
    update_table gatherTwoFormats.schema rvTwoFormats.schema_updates = .error schemaT2 ∧
    (process_done_task gatherTwoFormats (0, paramsTwoFormats) rvTwoFormats).deleted_files =
      ["s.t2.parquet.002.parquet.out"] ∧
    "s.t1.jsonl.001.jsonl.out" ∈
      allWrittenFiles (w_normalize_files envConflict capsJP schemaT2 "123" filesTwoFormats).stores ∧
    "s.t1.jsonl.001.jsonl.out" ∉
      (process_done_task gatherTwoFormats (0, paramsTwoFormats) rvTwoFormats).deleted_files := by
  exact ⟨by decide, by decide, by decide, by decide, by decide⟩

/-- C6, failing-input theorem.  Table `t2` is seen only in a zero-row jsonl
file and exists in the schema, so exactly one empty file is written for it —
but because the last processed file is parquet (routed to `arrow`), the
Python variable `load_storage` is bound to the arrow storage at the
empty-file loop, so the empty job goes through the `arrow` storage rather
than the default (preferred `jsonl`) one, contradicting the claim and the
code's own comment at line 107. -/
theorem empty_file_written_via_last_storage_bug :
    (w_normalize_files envZeroRows capsJP schemaT2 "123"
        ["s.t2.jsonl.001.jsonl", "s.t1.parquet.002.parquet"]).empty_jobs =
      [("t2", "arrow")] ∧
    capsJP.preferred_loader_file_format = some "jsonl" ∧
    "arrow" ≠ "jsonl" ∧
    Option.map LoadStorageM.written
        ((w_normalize_files envZeroRows capsJP schemaT2 "123"
          ["s.t2.jsonl.001.jsonl", "s.t1.parquet.002.parquet"]).stores.lookup "jsonl") =
      some [] ∧
    Option.map LoadStorageM.written
        ((w_normalize_files envZeroRows capsJP schemaT2 "123"
          ["s.t2.jsonl.001.jsonl", "s.t1.parquet.002.parquet"]).stores.lookup "arrow") =
      some ["s.t1.parquet.002.parquet.out", "s.t2.123.empty"] := by
  exact ⟨by decide, by decide, by decide, by decide, by decide⟩

/-- C8 counterexample.  Running the worker on a single parquet file while the
destination supports parquet mutates the per-run capabilities: `"arrow"` is
appended to `supported_loader_file_formats`, so the capabilities value does
not stay unchanged as claimed. -/
theorem w_normalize_files_mutates_caps_cex :
    (w_normalize_files envZeroRows capsJP schemaT2 "123"
        ["s.t1.parquet.001.parquet"]).caps ≠ capsJP ∧
    (w_normalize_files envZeroRows capsJP schemaT2 "123"
        ["s.t1.parquet.001.parquet"]).caps.supported_loader_file_formats =
      some ["jsonl", "parquet", "arrow"] := by
  exact ⟨by decide, by decide⟩

/-- C8 amended witness: a destination without parquet support keeps its
capabilities entirely unchanged through a worker run. -/
theorem w_normalize_files_caps_invariant_witness :
    "parquet" ∉ pyOrEmpty
      (DestinationCapabilities.mk (some "jsonl") none (some ["jsonl"])).supported_loader_file_formats ∧
    (w_normalize_files envZeroRows ⟨some "jsonl", none, some ["jsonl"]⟩ schemaT2 "123"
        ["s.t1.parquet.001.parquet"]).caps = ⟨some "jsonl", none, some ["jsonl"]⟩ :=
  ⟨by decide,
    (w_normalize_files_caps_invariant envZeroRows ⟨some "jsonl", none, some ["jsonl"]⟩
      schemaT2 "123" ["s.t1.parquet.001.parquet"]).2.2 (by decide)⟩

/-! ### `spool_files`, `spool_schema_files` and `run` (normalize.py lines 251-316)

The driver's control flow is embedded as a trace of the storage/signal
collaborator calls (all outside `src/`, so the calls themselves follow the
spec's contracts §4.1-§4.2, §6): the order of events and which of them happen
on each outcome is exactly the line order of the source. -/

inductive MapMode
  | parallel
  | single
deriving DecidableEq

/-- Exceptions that can cross `spool_files`: a column-coercion conflict, the
signalling error of `raise_if_signalled`, and anything else. -/
inductive SpoolErr
  | coerceConflict
  | signalled
  | other
deriving DecidableEq

/-- Collaborator calls made by the run driver. -/
inductive Ev
  | createTempPackage (load_id : String)
  | loadSchema (schema_name : String)
  | mapF (mode : MapMode) (load_id : String) (files : List String)
  | saveSchema (schema_name : String)
  | saveTempSchema (load_id : String)
  | saveTempSchemaUpdates (load_id : String)
  | signalCheck
  | commitTempPackage (load_id : String)
  | deleteExtractedFiles (files : List String)
  | setRowCounts (rc : TRowCount)
deriving DecidableEq

/-- Environment of one spool: whether the termination flag is set when
`raise_if_signalled` runs, and what each map function returns (the merged row
counts, or the exception it raises). -/
structure SpoolEnv where
  signalled : Bool
  mapOutcome : MapMode → Except SpoolErr TRowCount

/-- `Normalize.spool_files` (lines 251-274): load-or-create the schema, run
`map_f`, save the schema and the schema updates into the temp package, check
for a termination signal, commit the temp package, delete the extracted
files, and publish the row counts.  The returned trace lists the collaborator
calls in source order up to the first raised exception. -/
def spool_files (env : SpoolEnv) (schema_name load_id : String) (mode : MapMode)
    (files : List String) : List Ev × Except SpoolErr TRowCount :=
  let pre := [Ev.loadSchema schema_name, Ev.mapF mode load_id files]
  match env.mapOutcome mode with
  | .error e => (pre, .error e)
  | .ok rc =>
    let pre2 := pre ++ [Ev.saveSchema schema_name, Ev.saveTempSchema load_id,
      Ev.saveTempSchemaUpdates load_id, Ev.signalCheck]
    if env.signalled then (pre2, .error .signalled)
    else (pre2 ++ [Ev.commitTempPackage load_id, Ev.deleteExtractedFiles files,
      Ev.setRowCounts rc], .ok rc)

/-- `Normalize.spool_schema_files` (lines 276-291): create the temp load
package and spool with `map_parallel`; a `CannotCoerceColumnException`
recreates the temp package for the same `load_id` and re-runs `spool_files`
with `map_single` on the same files; any other exception propagates. -/
def spool_schema_files (env : SpoolEnv) (load_id schema_name : String)
    (files : List String) : List Ev × Except SpoolErr TRowCount :=
  let r1 := spool_files env schema_name load_id .parallel files
  match r1.2 with
  | .error .coerceConflict =>
    let r2 := spool_files env schema_name load_id .single files
    (Ev.createTempPackage load_id :: r1.1 ++ Ev.createTempPackage load_id :: r2.1, r2.2)
  | r => (Ev.createTempPackage load_id :: r1.1, r)

/-- Index of the first occurrence of an event in a trace. -/
def firstIdx : List Ev → Ev → Nat
  | [], _ => 0
  | e :: l, a => if e = a then 0 else firstIdx l a + 1

theorem createTemp_not_in_spool_files (env : SpoolEnv) (sn lid : String)
    (mode : MapMode) (fs : List String) (lid2 : String) :
    Ev.createTempPackage lid2 ∉ (spool_files env sn lid mode fs).1 := by
  unfold spool_files
  cases hm : env.mapOutcome mode with
  | error e => simp
  | ok rc => cases hs : env.signalled <;> simp

theorem mapF_mem_spool_files (env : SpoolEnv) (sn lid : String) (mode : MapMode)
    (fs : List String) :
    Ev.mapF mode lid fs ∈ (spool_files env sn lid mode fs).1 := by
  unfold spool_files
  cases hm : env.mapOutcome mode with
  | error e => simp
  | ok rc => cases hs : env.signalled <;> simp

theorem mapF_other_mode_not_in_spool_files (env : SpoolEnv) (sn lid : String)
    (mode mode2 : MapMode) (fs fs2 : List String) (lid2 : String)
    (hmode : mode2 ≠ mode) :
    Ev.mapF mode2 lid2 fs2 ∉ (spool_files env sn lid mode fs).1 := by
  unfold spool_files
  cases hm : env.mapOutcome mode with
  | error e => simp [hmode]
  | ok rc => cases hs : env.signalled <;> simp [hmode]

/-- C2, claim theorem.  In `spool_files`: (i) when the termination flag is set
and `map_f` completed, the spool raises at the signal check after the schema
and the schema updates were saved, and neither `commit_temp_load_package` nor
`delete_extracted_files` is called; (ii) in every execution the signal check
happens before the commit rename; (iii) extracted files are deleted only
after a successful commit. -/
theorem spool_files_signal_before_commit_delete_after (env : SpoolEnv)
    (sn lid : String) (mode : MapMode) (fs : List String) :
    (env.signalled = true → ∀ rc, env.mapOutcome mode = .ok rc →
      (spool_files env sn lid mode fs).2 = .error .signalled ∧
      Ev.commitTempPackage lid ∉ (spool_files env sn lid mode fs).1 ∧
      Ev.deleteExtractedFiles fs ∉ (spool_files env sn lid mode fs).1 ∧
      Ev.saveSchema sn ∈ (spool_files env sn lid mode fs).1 ∧
      Ev.saveTempSchema lid ∈ (spool_files env sn lid mode fs).1 ∧
      Ev.saveTempSchemaUpdates lid ∈ (spool_files env sn lid mode fs).1 ∧
      Ev.signalCheck ∈ (spool_files env sn lid mode fs).1) ∧
    (Ev.commitTempPackage lid ∈ (spool_files env sn lid mode fs).1 →
      firstIdx (spool_files env sn lid mode fs).1 Ev.signalCheck <
        firstIdx (spool_files env sn lid mode fs).1 (Ev.commitTempPackage lid)) ∧
    (Ev.deleteExtractedFiles fs ∈ (spool_files env sn lid mode fs).1 →
      Ev.commitTempPackage lid ∈ (spool_files env sn lid mode fs).1 ∧
      (spool_files env sn lid mode fs).2 ≠ .error .signalled ∧
      firstIdx (spool_files env sn lid mode fs).1 (Ev.commitTempPackage lid) <
        firstIdx (spool_files env sn lid mode fs).1 (Ev.deleteExtractedFiles fs)) := by
  cases hm : env.mapOutcome mode with
  | error e =>
    refine ⟨?_, ?_, ?_⟩
    · intro _ rc hrc
      exact absurd hrc (by simp)
    · intro hmem
      simp [spool_files, hm] at hmem
    · intro hmem
      simp [spool_files, hm] at hmem
  | ok rc =>
    cases hs : env.signalled with
    | true =>
      refine ⟨?_, ?_, ?_⟩
      · intro _ rc2 _
        simp [spool_files, hm, hs]
      · intro hmem
        simp [spool_files, hm, hs] at hmem
      · intro hmem
        simp [spool_files, hm, hs] at hmem
    | false =>
      refine ⟨?_, ?_, ?_⟩
      · intro hsig
        exact absurd hsig (by simp)
      · intro _
        simp [spool_files, hm, hs, firstIdx]
      · intro _
        refine ⟨by simp [spool_files, hm, hs], by simp [spool_files, hm, hs], ?_⟩
        simp [spool_files, hm, hs, firstIdx]

/-- C4, claim theorem.  In `spool_schema_files`: when the parallel spool
raises a column-coercion conflict, the temp load package for the same
`load_id` is created a second time and `spool_files` is re-run with
`map_single` on the same files, whose outcome is the final one; any exception
other than a coercion conflict propagates with no second package creation and
no single-threaded run. -/
theorem spool_schema_files_conflict_fallback (env : SpoolEnv) (lid sn : String)
    (fs : List String) :
    (env.mapOutcome .parallel = .error .coerceConflict →
      (spool_schema_files env lid sn fs).1 =
        Ev.createTempPackage lid :: (spool_files env sn lid .parallel fs).1 ++
          Ev.createTempPackage lid :: (spool_files env sn lid .single fs).1 ∧
      Ev.mapF .single lid fs ∈ (spool_schema_files env lid sn fs).1 ∧
      (spool_schema_files env lid sn fs).1.count (Ev.createTempPackage lid) = 2 ∧
      (spool_schema_files env lid sn fs).2 = (spool_files env sn lid .single fs).2) ∧
    (∀ e, (spool_files env sn lid .parallel fs).2 = .error e → e ≠ .coerceConflict →
      (spool_schema_files env lid sn fs).2 = .error e ∧
      Ev.mapF .single lid fs ∉ (spool_schema_files env lid sn fs).1 ∧
      (spool_schema_files env lid sn fs).1.count (Ev.createTempPackage lid) = 1) := by
  constructor
  · intro hp
    have hr1 : (spool_files env sn lid .parallel fs).2 = .error .coerceConflict := by
      simp [spool_files, hp]
    have htrace : (spool_schema_files env lid sn fs).1 =
        Ev.createTempPackage lid :: (spool_files env sn lid .parallel fs).1 ++
          Ev.createTempPackage lid :: (spool_files env sn lid .single fs).1 := by
      simp [spool_schema_files, hr1]
    have hresult : (spool_schema_files env lid sn fs).2 =
        (spool_files env sn lid .single fs).2 := by
      simp [spool_schema_files, hr1]
    refine ⟨htrace, ?_, ?_, hresult⟩
    · rw [htrace]
      have := mapF_mem_spool_files env sn lid .single fs
      simp [this]
    · rw [htrace]
      have hA := createTemp_not_in_spool_files env sn lid .parallel fs lid
      have hB := createTemp_not_in_spool_files env sn lid .single fs lid
      rw [← List.count_eq_zero] at hA hB
      simp [List.count_append, List.count_cons, hA, hB]
  · intro e he hne
    have hred : (spool_schema_files env lid sn fs) =
        (Ev.createTempPackage lid :: (spool_files env sn lid .parallel fs).1, .error e) := by
      cases e with
      | coerceConflict => exact absurd rfl hne
      | signalled => simp [spool_schema_files, he]
      | other => simp [spool_schema_files, he]
    refine ⟨by rw [hred], ?_, ?_⟩
    · rw [hred]
      have := mapF_other_mode_not_in_spool_files env sn lid .parallel .single fs fs lid
        (by simp)
      simp [this]
    · rw [hred]
      have hA := createTemp_not_in_spool_files env sn lid .parallel fs lid
      rw [← List.count_eq_zero] at hA
      simp [List.count_cons, hA]

/-! ### `run` and `get_normalize_info` (lines 293-316) -/

/-- One schema group of a run: the schema name, the fresh `load_id` assigned
to it, and its extracted files. -/
structure SchemaGroup where
  schema_name : String
  load_id : String
  files : List String

/-- The outcome of `spool_schema_files` for one group. -/
def spoolResult (p : SpoolEnv × SchemaGroup) : Except SpoolErr TRowCount :=
  (spool_schema_files p.1 p.2.load_id p.2.schema_name p.2.files).2

/-- The per-group loop of `run` threaded over `self._row_counts`: each
successful spool *replaces* the instance row counts (line 274,
`self._row_counts = row_counts`); the first exception aborts the run with the
counts left from the last successful group. -/
def run_go : TRowCount → List (SpoolEnv × SchemaGroup) →
    Except SpoolErr Unit × TRowCount
  | rc, [] => (.ok (), rc)
  | rc, p :: rest =>
    match spoolResult p with
    | .ok rc2 => run_go rc2 rest
    | .error e => (.error e, rc)

/-- `Normalize.run` restricted to its row-count state: `_row_counts` is reset
to empty at the start (line 296) and then threaded through the groups. -/
def run_model (groups : List (SpoolEnv × SchemaGroup)) :
    Except SpoolErr Unit × TRowCount :=
  run_go [] groups

/-- `Normalize.get_normalize_info` (lines 315-316): returns the instance's
last-run row counts unchanged. -/
def get_normalize_info (row_counts : TRowCount) : TRowCount := row_counts

theorem run_go_append_last (p : SpoolEnv × SchemaGroup) (rc : TRowCount)
    (hp : spoolResult p = .ok rc) :
    ∀ (init : List (SpoolEnv × SchemaGroup)) (rc0 : TRowCount),
      (∀ q ∈ init, ∃ rc2, spoolResult q = .ok rc2) →
      run_go rc0 (init ++ [p]) = (.ok (), rc) := by
  intro init
  induction init with
  | nil =>
    intro rc0 _
    simp [run_go, hp]
  | cons q rest ih =>
    intro rc0 hpre
    obtain ⟨rc2, hq⟩ := hpre q (by simp)
    simp only [List.cons_append, run_go, hq]
    exact ih rc2 (fun r hr => hpre r (by simp [hr]))

/-- C10, claim theorem.  After a run over several schema groups in which every
group spools successfully, the instance's last-run row counts — what
`get_normalize_info` reports — are exactly the merged row counts of the *last*
group spooled: `run` starts from empty `_row_counts` and each successful
`spool_files` replaces them wholesale, with no per-table merging across
groups. -/
theorem run_row_counts_last_group_only (init : List (SpoolEnv × SchemaGroup))
    (p : SpoolEnv × SchemaGroup) (rc : TRowCount)
    (hpre : ∀ q ∈ init, ∃ rc2, spoolResult q = .ok rc2)
    (hp : spoolResult p = .ok rc) :
    run_model (init ++ [p]) = (.ok (), rc) ∧
    get_normalize_info (run_model (init ++ [p])).2 = rc := by
  have h := run_go_append_last p rc hp init [] hpre
  refine ⟨h, ?_⟩
  show get_normalize_info (run_go [] (init ++ [p])).2 = rc
  rw [h]
  rfl

/-! ### Concrete spool environments for the witnesses -/

/-- A spool whose map functions succeed but with the termination flag set. -/
def envSignalled : SpoolEnv := ⟨true, fun _ => .ok [("t", 1)]⟩

/-- A spool whose parallel map raises a coercion conflict and whose
single-threaded map succeeds. -/
def envParallelConflict : SpoolEnv :=
  ⟨false, fun mode => if mode = .parallel then .error .coerceConflict else .ok [("t", 4)]⟩

/-- Spools that succeed with distinct row counts. -/
def envOkA : SpoolEnv := ⟨false, fun _ => .ok [("a", 1)]⟩

def envOkB : SpoolEnv := ⟨false, fun _ => .ok [("b", 5)]⟩

def groupA : SchemaGroup := ⟨"s1", "100", ["s1.t.jsonl.001.jsonl"]⟩

def groupB : SchemaGroup := ⟨"s2", "200", ["s2.t.jsonl.002.jsonl"]⟩

/-- C2 witness: the signal-safety theorem at a concrete signalled spool. -/
theorem spool_files_signal_before_commit_delete_after_witness :
    (envSignalled.signalled = true ∧ envSignalled.mapOutcome .parallel = .ok [("t", 1)]) ∧
    ((spool_files envSignalled "s" "100" .parallel ["f.t.jsonl.001.jsonl"]).2 =
        .error .signalled ∧
      Ev.commitTempPackage "100" ∉
        (spool_files envSignalled "s" "100" .parallel ["f.t.jsonl.001.jsonl"]).1 ∧
      Ev.deleteExtractedFiles ["f.t.jsonl.001.jsonl"] ∉
        (spool_files envSignalled "s" "100" .parallel ["f.t.jsonl.001.jsonl"]).1 ∧
      Ev.saveSchema "s" ∈
        (spool_files envSignalled "s" "100" .parallel ["f.t.jsonl.001.jsonl"]).1 ∧
      Ev.saveTempSchema "100" ∈
        (spool_files envSignalled "s" "100" .parallel ["f.t.jsonl.001.jsonl"]).1 ∧
      Ev.saveTempSchemaUpdates "100" ∈
        (spool_files envSignalled "s" "100" .parallel ["f.t.jsonl.001.jsonl"]).1 ∧
      Ev.signalCheck ∈
        (spool_files envSignalled "s" "100" .parallel ["f.t.jsonl.001.jsonl"]).1) :=
  ⟨⟨rfl, rfl⟩,
    (spool_files_signal_before_commit_delete_after envSignalled "s" "100" .parallel
      ["f.t.jsonl.001.jsonl"]).1 rfl [("t", 1)] rfl⟩

/-- C4 witness: the conflict-fallback theorem at a concrete conflicting
parallel spool. -/
theorem spool_schema_files_conflict_fallback_witness :
    envParallelConflict.mapOutcome .parallel = .error .coerceConflict ∧
    ((spool_schema_files envParallelConflict "100" "s" ["f.t.jsonl.001.jsonl"]).1 =
        Ev.createTempPackage "100" ::
          (spool_files envParallelConflict "s" "100" .parallel ["f.t.jsonl.001.jsonl"]).1 ++
          Ev.createTempPackage "100" ::
            (spool_files envParallelConflict "s" "100" .single ["f.t.jsonl.001.jsonl"]).1 ∧
      Ev.mapF .single "100" ["f.t.jsonl.001.jsonl"] ∈
        (spool_schema_files envParallelConflict "100" "s" ["f.t.jsonl.001.jsonl"]).1 ∧
      (spool_schema_files envParallelConflict "100" "s"
          ["f.t.jsonl.001.jsonl"]).1.count (Ev.createTempPackage "100") = 2 ∧
      (spool_schema_files envParallelConflict "100" "s" ["f.t.jsonl.001.jsonl"]).2 =
        (spool_files envParallelConflict "s" "100" .single ["f.t.jsonl.001.jsonl"]).2) :=
  ⟨rfl,
    (spool_schema_files_conflict_fallback envParallelConflict "100" "s"
      ["f.t.jsonl.001.jsonl"]).1 rfl⟩

/-- C10 witness: two groups, both successful — the reported row counts are the
second group's, not a merge. -/
theorem run_row_counts_last_group_only_witness :
    (∀ q ∈ [((envOkA, groupA) : SpoolEnv × SchemaGroup)],
      ∃ rc2, spoolResult q = .ok rc2) ∧
    spoolResult (envOkB, groupB) = .ok [("b", 5)] ∧
    (run_model [(envOkA, groupA), (envOkB, groupB)] = (.ok (), [("b", 5)]) ∧
      get_normalize_info (run_model [(envOkA, groupA), (envOkB, groupB)]).2 = [("b", 5)]) :=
  ⟨fun q hq => by
      rw [List.mem_singleton] at hq
      subst hq
      exact ⟨[("a", 1)], rfl⟩,
    rfl,
    run_row_counts_last_group_only [(envOkA, groupA)] (envOkB, groupB) [("b", 5)]
      (fun q hq => by
        rw [List.mem_singleton] at hq
        subst hq
        exact ⟨[("a", 1)], rfl⟩)
      rfl⟩

end DltNormalize
